import Mathlib

/-!
Verification of the availability / schedule view component of the
appointment project, together with the reconciliation engine that the
design document specifies around it.

The component under scrutiny is the schedule view: it keeps the currently
selected date and month range, fetches remote calendar events per
connected calendar, and exposes the first configured schedule.  The
reconciliation engine (intervals, slot generation, booking window) is
specified by the design document; its operations are modelled here from
that document where no implementation ships in the frontend sources.

Conventions: the field named end in the sources is called stop here,
because end is a reserved word in Lean.  Timestamps are modelled at
minute resolution, so a dayjs difference in minutes is an exact integer
difference.
-/

namespace Appointment

/-- A calendar date, year / month / day, as handled by dayjs. -/
structure Date where
  year : Nat
  month : Nat
  day : Nat
deriving DecidableEq, Repr

/-- Gregorian leap year rule, as implemented by dayjs. -/
def isLeap (y : Nat) : Bool :=
  (y % 4 == 0 && y % 100 != 0) || y % 400 == 0

/-- Month lengths for a (non-)leap year, January first. -/
def monthLengths (leap : Bool) : List Nat :=
  [31, if leap then 29 else 28, 31, 30, 31, 30, 31, 31, 30, 31, 30, 31]

/-- Number of days in the given month of the given year. -/
def daysInMonth (y m : Nat) : Nat :=
  ((monthLengths (isLeap y)).getD (m - 1) 31)

/-- The dayjs operation add(1, day): advance a calendar date by one day,
rolling over month and year boundaries. -/
def addOneDay (d : Date) : Date :=
  if d.day < daysInMonth d.year d.month then ⟨d.year, d.month, d.day + 1⟩
  else if d.month < 12 then ⟨d.year, d.month + 1, 1⟩
  else ⟨d.year + 1, 1, 1⟩

/-- The dayjs operation startOf(month). -/
def startOfMonth (d : Date) : Date := ⟨d.year, d.month, 1⟩

/-- The dayjs operation endOf(month), at day granularity. -/
def endOfMonth (d : Date) : Date := ⟨d.year, d.month, daysInMonth d.year d.month⟩

/-- The dayjs format YYYYMM used by the month comparison in onDateChange:
only year and month of a date. -/
def ym (d : Date) : Nat × Nat := (d.year, d.month)

/-- Cumulative number of days strictly before month m (1-based) in a year. -/
def daysBeforeMonth (leap : Bool) (m : Nat) : Nat :=
  ((monthLengths leap).take (m - 1)).sum

/-- Day count of a date from the epoch of year 1, used to give calendar
datetimes an absolute minute timeline (what dayjs diff and add compute on). -/
def daysSinceEpoch (d : Date) : Nat :=
  let y := d.year - 1
  y * 365 + y / 4 - y / 100 + y / 400 + daysBeforeMonth (isLeap d.year) d.month + (d.day - 1)

/-- A wall-clock datetime: a calendar date plus the minute of that day. -/
structure DateTime where
  date : Date
  minute : Nat
deriving DecidableEq, Repr

/-- Absolute minute timeline of a datetime. -/
def toAbsMinutes (dt : DateTime) : Nat :=
  daysSinceEpoch dt.date * 1440 + dt.minute

/-- A normalized remote calendar event as consumed by the schedule view.
Field stop is the source field end; timestamps are absolute minutes. -/
structure RemoteEvent where
  start : Int
  stop : Int
  title : String
  all_day : Bool
  tentative : Bool
  calendar_title : String
  duration : Int
deriving DecidableEq, Repr

/-- The event transformation applied inside getRemoteEvents: spread the
event and overwrite duration with dj(event.end).diff(dj(event.start),
minutes); at minute resolution that difference is stop - start. -/
def withDuration (e : RemoteEvent) : RemoteEvent :=
  { e with duration := e.stop - e.start }

/-- Location type of a schedule, mirroring the EventLocationType enum of
the definitions module (not part of the shown sources). -/
inductive EventLocationType where
  | inPerson
  | online
deriving DecidableEq, Repr

/-- Meeting link provider, mirroring the MeetingLinkProviderType enum of
the definitions module (not part of the shown sources). -/
inductive MeetingLinkProviderType where
  | noProvider
  | zoom
  | googleMeet
deriving DecidableEq, Repr

/-- Connected calendar metadata attached to a schedule. -/
structure CalendarInfo where
  id : Nat
  title : String
  color : String
  connected : Bool
deriving DecidableEq, Repr

/-- Default slot duration constant of the definitions module (not part of
the shown sources); its value is immaterial to every claim below. -/
def DEFAULT_SLOT_DURATION : Nat := 30

/-- A user schedule as the schedule view receives it from the backend. -/
structure Schedule where
  active : Bool
  name : String
  calendar_id : Nat
  location_type : EventLocationType
  location_url : String
  details : String
  start_date : Date
  end_date : Option Date
  start_time : String
  end_time : String
  earliest_booking : Nat
  farthest_booking : Nat
  weekdays : List Nat
  slot_duration : Nat
  meeting_link_provider : MeetingLinkProviderType
  booking_confirmation : Bool
  calendar : CalendarInfo
deriving DecidableEq, Repr

/-- The computed firstSchedule: schedules.length > 0 selects element 0,
otherwise null. -/
def firstSchedule : List Schedule → Option Schedule
  | [] => none
  | s :: _ => some s

/-- One remote event retrieval issued by getRemoteEvents: the URL
rmt/cal/id/from/inclusiveTo carries the calendar id and both bounds. -/
structure FetchRequest where
  calendarId : Nat
  lo : Date
  hi : Date
deriving DecidableEq, Repr

/-- The per-calendar retrievals issued by getRemoteEvents for a query
range: one request per connected calendar, with upper bound
inclusiveTo = dj(to).add(1, day). -/
def remoteEventRequests (cals : List Nat) (fromDate toDate : Date) : List FetchRequest :=
  let inclusiveTo := addOneDay toDate
  cals.map (fun id => ⟨id, fromDate, inclusiveTo⟩)

/-- Outcome of one per-calendar retrieval: either a JSON array of events
(data.value is an array) or anything else, which the Array.isArray guard
in getRemoteEvents treats as a failed fetch. -/
inductive FetchResult where
  | ok (events : List RemoteEvent)
  | failed (error : String)
deriving DecidableEq, Repr

/-- The event collection performed by getRemoteEvents once all
per-calendar responses have settled: each successful response pushes its
events, mapped through withDuration, into calendarEvents; a response that
is not an array is skipped by the Array.isArray guard and contributes
nothing. -/
def collectRemoteEvents (results : List (Nat × FetchResult)) : List RemoteEvent :=
  (results.map (fun cr =>
    match cr.2 with
    | .ok evts => evts.map withDuration
    | .failed _ => [])).flatten

/-- The failure record surfaced by getRemoteEvents.  The component keeps
no failure state at all: a failed response merely fails the Array.isArray
guard and is skipped, so the surfaced per-calendar failure mapping is
empty whatever the responses were.  This definition makes that absence
explicit so the design documents failure-reporting contract can be
compared against the code. -/
def getRemoteEventsFailures (results : List (Nat × FetchResult)) : List (Nat × String) :=
  match results with
  | _ => []

/-- One step of the caller-visible calendarEvents state.  Starting a query
(getRemoteEvents) synchronously clears the list; a per-calendar response
for any query, current or superseded, appends its events through
withDuration.  The code attaches no query identity to a response, so the
step function cannot and does not compare the response query against the
latest one. -/
def stepEvents (events : List RemoteEvent) : Nat × Option (List RemoteEvent) → List RemoteEvent
  | (_, none) => []
  | (_, some evts) => events ++ evts.map withDuration

/-- An action on the calendarEvents state: newQuery q is getRemoteEvents
being entered for query q, response q evts is one per-calendar response of
query q resolving. -/
inductive FetchAction where
  | newQuery (queryId : Nat)
  | response (queryId : Nat) (events : List RemoteEvent)
deriving DecidableEq, Repr

/-- Interpretation of an action as a step on calendarEvents. -/
def applyAction (events : List RemoteEvent) : FetchAction → List RemoteEvent
  | .newQuery q => stepEvents events (q, none)
  | .response q evts => stepEvents events (q, some evts)

/-- The calendarEvents state after an interleaving of query starts and
response arrivals, from the initial empty list. -/
def runEvents (acts : List FetchAction) : List RemoteEvent :=
  acts.foldl applyAction []

/-- The dateObj payload delivered by the calendar widget to onDateChange;
stop is the source field end. -/
structure TimeFormatted where
  start : DateTime
  stop : DateTime
deriving DecidableEq, Repr

/-- The reactive state of the schedule view that the modelled operations
read and write. -/
structure ViewState where
  activeDate : Nat
  activeDateRange : Date × Date
  calendarEvents : List RemoteEvent
  schedules : List Schedule
  schedulesReady : Bool
deriving Repr

/-- The onDateChange handler.  It always moves activeDate to the midpoint
start.add(end.diff(start, minutes) / 2, minutes) of the delivered range,
and issues a remote fetch exactly when the YYYYMM rendering of the stored
activeDateRange differs from that of the delivered range on either bound;
the issued fetch (getRemoteEvents) synchronously clears calendarEvents.
It never writes activeDateRange.  The second component is the query range
handed to getRemoteEvents, none when no fetch is issued. -/
def onDateChange (s : ViewState) (e : TimeFormatted) : ViewState × Option (Date × Date) :=
  let st := toAbsMinutes e.start
  let en := toAbsMinutes e.stop
  let s1 := { s with activeDate := st + (en - st) / 2 }
  if ym s.activeDateRange.2 ≠ ym e.stop.date ∨ ym s.activeDateRange.1 ≠ ym e.start.date then
    ({ s1 with calendarEvents := [] }, some (e.start.date, e.stop.date))
  else
    (s1, none)

/-- Folding a sequence of date-change events through onDateChange,
discarding the issued fetches. -/
def runDateChanges (s : ViewState) (es : List TimeFormatted) : ViewState :=
  es.foldl (fun st e => (onDateChange st e).1) s

/-- A network call the mounted handler can issue: the global refresh, the
schedule list retrieval, or one per-calendar remote event retrieval. -/
inductive NetworkCall where
  | refresh
  | scheduleList
  | remoteEvents (calendarId : Nat) (lo : Date) (hi : Date)
deriving DecidableEq, Repr

/-- The per-calendar network calls issued by getRemoteEvents for a query
range, as network calls. -/
def getRemoteEventsCalls (cals : List Nat) (fromDate toDate : Date) : List NetworkCall :=
  (remoteEventRequests cals fromDate toDate).map (fun r => .remoteEvents r.calendarId r.lo r.hi)

/-- The fake schedule installed by the mounted handler on the setup route,
field for field the object literal of the source; start_date is
dj().format(DateFormatStrings.QalendarFullDay), the current date. -/
def setupPlaceholderSchedule (today : Date) : Schedule where
  active := false
  name := ""
  calendar_id := 0
  location_type := .inPerson
  location_url := ""
  details := ""
  start_date := today
  end_date := none
  start_time := "09:00"
  end_time := "17:00"
  earliest_booking := 1440
  farthest_booking := 20160
  weekdays := [1, 2, 3, 4, 5]
  slot_duration := DEFAULT_SLOT_DURATION
  meeting_link_provider := .noProvider
  booking_confirmation := true
  calendar := ⟨0, "", "#000", true⟩

/-- The mounted handler.  On the setup route it installs the placeholder
schedule, marks the schedules ready and returns before any network call;
otherwise it awaits refresh, retrieves the schedule list (fetchedSchedules
is the response), marks ready, and retrieves remote events for the month
of the active date.  The second component lists the network calls issued,
in order. -/
def onMounted (routeName : String) (today : Date) (activeDate0 : Date) (cals : List Nat)
    (fetchedSchedules : List Schedule) (st : ViewState) : ViewState × List NetworkCall :=
  if routeName = "setup" then
    ({ st with schedules := [setupPlaceholderSchedule today], schedulesReady := true }, [])
  else
    ({ st with schedules := fetchedSchedules, schedulesReady := true },
      [.refresh, .scheduleList] ++
        getRemoteEventsCalls cals (startOfMonth activeDate0) (endOfMonth activeDate0))

/-- Modelled from the spec: the Interval primitive of the reconciliation
engine (section 4.1), a half-open time range on the absolute minute
timeline; no implementation ships in the shown sources.  Field stop is
the end bound. -/
structure Interval where
  start : Int
  stop : Int
deriving DecidableEq, Repr

/-- Modelled from the spec: overlaps with half-open semantics, touching
endpoints do not overlap (section 4.1). -/
def overlaps (a b : Interval) : Bool :=
  a.start < b.stop && b.start < a.stop

/-- Modelled from the spec: the coalescing pass of merge, which walks a
start-sorted sequence and fuses overlapping or adjacent neighbours into
maximal runs (section 4.1). -/
def coalesce : List Interval → List Interval
  | [] => []
  | [a] => [a]
  | a :: b :: rest =>
    if b.start ≤ a.stop then coalesce (⟨a.start, max a.stop b.stop⟩ :: rest)
    else a :: coalesce (b :: rest)
termination_by l => l.length

/-- Modelled from the spec: the by-start comparison merge sorts with
(section 4.1). -/
def startLE (a b : Interval) : Bool :=
  a.start ≤ b.start

/-- Modelled from the spec: merge sorts by start if not already sorted,
then coalesces (section 4.1). -/
def merge (xs : List Interval) : List Interval :=
  coalesce (xs.mergeSort startLE)

/-- Modelled from the spec: one candidate bookable slot of the slot
generator, a day of the grid plus the half-open minute window
start / stop within that day (sections 3 and 4.5). -/
structure Slot where
  day : Nat
  start : Nat
  stop : Nat
deriving DecidableEq, Repr

/-- Modelled from the spec: the ISO weekday (1 = Monday .. 7 = Sunday) of
a day of the grid, days being counted from an epoch Monday. -/
def weekdayOf (day : Nat) : Nat := day % 7 + 1

/-- Modelled from the spec: the schedule configuration the engine
consumes (section 3): daily window and slot duration in minutes of the
day, booking lead bounds in minutes from now, validity range on the
absolute minute timeline. -/
structure EngineSchedule where
  active : Bool
  weekdays : List Nat
  start_time : Nat
  end_time : Nat
  slot_duration : Nat
  earliest_booking : Nat
  farthest_booking : Nat
  start_date : Int
  end_date : Option Int
deriving DecidableEq, Repr

/-- Modelled from the spec: the inner loop of the slot generator, which
from minute t of a day emits consecutive slots of length dur until the
next slot would end past endT; a slot is emitted only when it fits
entirely (section 4.5). -/
def slotsFrom (day t endT dur : Nat) : List Slot :=
  if _h : 0 < dur ∧ t + dur ≤ endT then
    ⟨day, t, t + dur⟩ :: slotsFrom day (t + dur) endT dur
  else []
termination_by endT - t
decreasing_by omega

/-- Modelled from the spec: SlotGenerator.generate iterates the days of
the half-open range, skips a day unless its weekday is in the schedule
weekday set, and emits the daily slot run for each kept day
(section 4.5). -/
def generate (s : EngineSchedule) (fromDay toDay : Nat) : List Slot :=
  (((List.range (toDay - fromDay)).map (fun i => fromDay + i)).map
    (fun day =>
      if weekdayOf day ∈ s.weekdays then slotsFrom day s.start_time s.end_time s.slot_duration
      else [])).flatten

/-- Modelled from the spec: BookingWindowPolicy.allowedRange computes
[now + earliest_booking, now + farthest_booking) clipped to
[start_date, end_date or unbounded), and returns an empty interval with
start equal to stop, rather than failing, when the clipped window is
empty or inverted (section 4.4). -/
def allowedRange (s : EngineSchedule) (now : Int) : Interval :=
  let lo := max (now + s.earliest_booking) s.start_date
  let hi :=
    match s.end_date with
    | some ed => min (now + s.farthest_booking) ed
    | none => now + s.farthest_booking
  if hi ≤ lo then ⟨lo, lo⟩ else ⟨lo, hi⟩

/-- Modelled from the spec: a slot on the absolute timeline is inside the
booking window when it lies entirely within it, the clipping the
orchestrator applies to the candidate grid (section 4.6). -/
def inWindow (w : Interval) (slotStart slotStop : Int) : Prop :=
  w.start ≤ slotStart ∧ slotStop ≤ w.stop

/-- A concrete remote event used by the concrete evaluations below. -/
def evExample : RemoteEvent :=
  ⟨600, 690, "Standup", false, false, "Work", 0⟩

/-- A second concrete remote event. -/
def evExample2 : RemoteEvent :=
  ⟨800, 860, "Review", false, false, "Work", 0⟩

/-- A concrete inactive schedule, listed first in the counterexample to
the first-active-schedule claim. -/
def inactiveScheduleExample : Schedule :=
  setupPlaceholderSchedule ⟨2024, 1, 1⟩

/-- A concrete active schedule, listed second in the counterexample to
the first-active-schedule claim. -/
def activeScheduleExample : Schedule :=
  { setupPlaceholderSchedule ⟨2024, 1, 1⟩ with active := true, name := "Office hours" }

/-- A concrete initial view state, mounted on January 2024. -/
def initStateExample : ViewState where
  activeDate := 0
  activeDateRange := (⟨2024, 1, 1⟩, ⟨2024, 1, 31⟩)
  calendarEvents := []
  schedules := []
  schedulesReady := false

/-- A concrete date-change payload that navigates back to January 2024,
the initially mounted month. -/
def tfExample : TimeFormatted :=
  ⟨⟨⟨2024, 1, 1⟩, 0⟩, ⟨⟨2024, 1, 31⟩, 1439⟩⟩

/-- The business-week schedule of the design documents worked examples:
Monday to Friday, 09:00 to 17:00, 60 minute slots, bookable between one
day and two weeks out, valid from the epoch with no end. -/
def businessWeekSchedule : EngineSchedule where
  active := true
  weekdays := [1, 2, 3, 4, 5]
  start_time := 540
  end_time := 1020
  slot_duration := 60
  earliest_booking := 1440
  farthest_booking := 20160
  start_date := 0
  end_date := none

/-- C1: every remote-calendar retrieval issued for a query range carries,
as the upper bound handed to the external calendar client, the query to
date advanced by exactly one day. -/
theorem remote_fetch_upper_bound (cals : List Nat) (fromDate toDate : Date)
    (r : FetchRequest) (hr : r ∈ remoteEventRequests cals fromDate toDate) :
    r.hi = addOneDay toDate := by
  simp only [remoteEventRequests, List.mem_map] at hr
  obtain ⟨id, _, rfl⟩ := hr
  rfl

/-- Concrete instance of the upper-bound contract: the single request for
January 2024 carries February 1 as upper bound. -/
theorem remote_fetch_upper_bound_witness :
    (⟨5, ⟨2024, 1, 1⟩, ⟨2024, 2, 1⟩⟩ : FetchRequest).hi = addOneDay ⟨2024, 1, 31⟩ :=
  remote_fetch_upper_bound [5] ⟨2024, 1, 1⟩ ⟨2024, 1, 31⟩ _ (by decide)

/-- C2 counterexample: when the second of three connected calendars fails,
the code records the failure nowhere: the surfaced per-calendar failure
mapping is empty, not a mapping with one entry, even though the two
successful calendars still contribute all their events. -/
theorem getRemoteEvents_failures_unrecorded :
    getRemoteEventsFailures
        [(1, .ok [evExample]), (2, .failed "network error"), (3, .ok [evExample2])] = [] ∧
    collectRemoteEvents
        [(1, .ok [evExample]), (2, .failed "network error"), (3, .ok [evExample2])] =
      [withDuration evExample, withDuration evExample2] :=
  ⟨rfl, rfl⟩

/-- C2 (amended): a failed per-calendar fetch is isolated in the sense
that it contributes no events while every other calendar still
contributes all of its events, but no per-calendar failure mapping is
produced: the failure is silently discarded. -/
theorem calendar_failure_isolated (pre post : List (Nat × FetchResult)) (id : Nat) (err : String) :
    collectRemoteEvents (pre ++ (id, .failed err) :: post) =
      collectRemoteEvents pre ++ collectRemoteEvents post ∧
    getRemoteEventsFailures (pre ++ (id, .failed err) :: post) = [] := by
  refine ⟨?_, rfl⟩
  simp [collectRemoteEvents]

/-- C3 counterexample: a query superseded by a newer one still updates the
caller-visible event state when its response arrives: after query 0 is
superseded by query 1, the late response of query 0 leaves the state
holding the stale events rather than the empty state of query 1. -/
theorem stale_response_updates_state :
    runEvents [.newQuery 0, .newQuery 1, .response 0 [evExample]] = [withDuration evExample] ∧
    [withDuration evExample] ≠ ([] : List RemoteEvent) := by
  exact ⟨rfl, by decide⟩

/-- C3 (amended): the code performs no cancellation: starting a new query
only clears the event list, and a response of any query, superseded or
current alike, appends its events to the caller-visible state when it
resolves. -/
theorem no_cancellation (events : List RemoteEvent) (q : Nat) (evts : List RemoteEvent) :
    applyAction events (.response q evts) = events ++ evts.map withDuration ∧
    applyAction events (.newQuery q) = [] :=
  ⟨rfl, rfl⟩

/-- C4 counterexample: with an inactive schedule listed first and an
active one second, firstSchedule consumes the inactive one even though an
active schedule exists. -/
theorem firstSchedule_ignores_active_flag :
    firstSchedule [inactiveScheduleExample, activeScheduleExample] = some inactiveScheduleExample ∧
    inactiveScheduleExample.active = false ∧
    activeScheduleExample.active = true :=
  ⟨rfl, rfl, rfl⟩

/-- C4 (amended): firstSchedule consumes the first schedule of the list
whatever its active flag, and none when the list is empty. -/
theorem firstSchedule_takes_head (s : Schedule) (rest : List Schedule) :
    firstSchedule (s :: rest) = some s ∧ firstSchedule [] = none :=
  ⟨rfl, rfl⟩

/-- The onDateChange handler never writes activeDateRange. -/
theorem onDateChange_preserves_range (s : ViewState) (e : TimeFormatted) :
    ((onDateChange s e).1).activeDateRange = s.activeDateRange := by
  unfold onDateChange
  split <;> rfl

/-- Any navigation history leaves activeDateRange at its initial value. -/
theorem runDateChanges_activeDateRange (s : ViewState) (l : List TimeFormatted) :
    (runDateChanges s l).activeDateRange = s.activeDateRange := by
  induction l generalizing s with
  | nil => rfl
  | cons x xs ih =>
    have hstep : runDateChanges s (x :: xs) = runDateChanges ((onDateChange s x).1) xs := rfl
    rw [hstep, ih]
    exact onDateChange_preserves_range s x

/-- C8: activeDateRange is assigned only at initialization: any sequence
of onDateChange events leaves it at its initial value, so the month
comparison always runs against the initially mounted range, and a
date-change event whose months equal the initial range months never
triggers a remote fetch, whatever navigation happened before. -/
theorem activeDateRange_initial_only (init : ViewState) (es : List TimeFormatted)
    (e : TimeFormatted)
    (hs : ym e.start.date = ym init.activeDateRange.1)
    (he : ym e.stop.date = ym init.activeDateRange.2) :
    (runDateChanges init es).activeDateRange = init.activeDateRange ∧
    (onDateChange (runDateChanges init es) e).2 = none := by
  have h2 := runDateChanges_activeDateRange init es
  refine ⟨h2, ?_⟩
  simp [onDateChange, h2, hs, he]

/-- Concrete instance: after one navigation away, navigating back to the
initially mounted month of January 2024 issues no remote fetch. -/
theorem activeDateRange_initial_only_witness :
    (runDateChanges initStateExample [tfExample]).activeDateRange =
      initStateExample.activeDateRange ∧
    (onDateChange (runDateChanges initStateExample [tfExample]) tfExample).2 = none :=
  activeDateRange_initial_only initStateExample [tfExample] tfExample (by decide) (by decide)

/-- C9: every event stored into the caller-visible list carries a
duration equal to its stop minus start in minutes, and originates from a
source event of a successful response with every field except duration
passed through unchanged. -/
theorem collected_events_duration (results : List (Nat × FetchResult)) (e : RemoteEvent)
    (he : e ∈ collectRemoteEvents results) :
    e.duration = e.stop - e.start ∧
    ∃ src, e = withDuration src ∧ src.start = e.start ∧ src.stop = e.stop ∧
      src.title = e.title ∧ src.all_day = e.all_day ∧ src.tentative = e.tentative ∧
      src.calendar_title = e.calendar_title := by
  simp only [collectRemoteEvents, List.mem_flatten, List.mem_map] at he
  obtain ⟨block, ⟨cr, _, hcr⟩, hblock⟩ := he
  rcases hres : cr.2 with evts | err
  · rw [hres] at hcr
    subst hcr
    obtain ⟨src, _, rfl⟩ := List.mem_map.mp hblock
    exact ⟨rfl, src, rfl, rfl, rfl, rfl, rfl, rfl, rfl⟩
  · rw [hres] at hcr
    subst hcr
    simp at hblock

/-- Concrete instance: the single event collected from one successful
calendar response has duration 90 minutes, stop minus start. -/
theorem collected_events_duration_witness :
    (withDuration evExample).duration = (withDuration evExample).stop - (withDuration evExample).start ∧
    ∃ src, withDuration evExample = withDuration src ∧
      src.start = (withDuration evExample).start ∧ src.stop = (withDuration evExample).stop ∧
      src.title = (withDuration evExample).title ∧ src.all_day = (withDuration evExample).all_day ∧
      src.tentative = (withDuration evExample).tentative ∧
      src.calendar_title = (withDuration evExample).calendar_title :=
  collected_events_duration [(1, .ok [evExample])] (withDuration evExample) (by decide)

/-- C10: mounted on the setup route, the handler installs exactly one
placeholder schedule with the literal fields of the source, marks the
schedule list ready, and issues no network call at all. -/
theorem onMounted_setup (today activeDate0 : Date) (cals : List Nat)
    (fetched : List Schedule) (st : ViewState) :
    onMounted "setup" today activeDate0 cals fetched st =
      ({ st with schedules := [setupPlaceholderSchedule today], schedulesReady := true }, []) ∧
    (setupPlaceholderSchedule today).active = false ∧
    (setupPlaceholderSchedule today).weekdays = [1, 2, 3, 4, 5] ∧
    (setupPlaceholderSchedule today).start_time = "09:00" ∧
    (setupPlaceholderSchedule today).end_time = "17:00" ∧
    (setupPlaceholderSchedule today).earliest_booking = 1440 ∧
    (setupPlaceholderSchedule today).farthest_booking = 20160 ∧
    (setupPlaceholderSchedule today).booking_confirmation = true := by
  refine ⟨?_, rfl, rfl, rfl, rfl, rfl, rfl, rfl⟩
  simp [onMounted]

/-- Every interval of a coalesced list starts where some input interval
starts. -/
theorem coalesce_start_mem : ∀ (l : List Interval), ∀ x ∈ coalesce l, ∃ y ∈ l, y.start = x.start := by
  intro l
  induction l using coalesce.induct with
  | case1 =>
    intro x hx
    simp [coalesce] at hx
  | case2 a =>
    intro x hx
    simp [coalesce] at hx
    exact ⟨a, by simp, by rw [hx]⟩
  | case3 a b rest h ih =>
    intro x hx
    simp only [coalesce] at hx
    rw [if_pos h] at hx
    obtain ⟨y, hy, hys⟩ := ih x hx
    rcases List.mem_cons.mp hy with h1 | h1
    · refine ⟨a, by simp, ?_⟩
      rw [h1] at hys
      exact hys
    · exact ⟨y, by simp [h1], hys⟩
  | case4 a b rest h ih =>
    intro x hx
    simp only [coalesce] at hx
    rw [if_neg h] at hx
    rcases List.mem_cons.mp hx with h1 | h1
    · exact ⟨a, by simp, by rw [h1]⟩
    · obtain ⟨y, hy, hys⟩ := ih x h1
      exact ⟨y, List.mem_cons_of_mem _ hy, hys⟩

/-- Coalescing a start-sorted list keeps it start-sorted. -/
theorem coalesce_sorted : ∀ (l : List Interval), l.Pairwise (fun a b => a.start ≤ b.start) →
    (coalesce l).Pairwise (fun a b => a.start ≤ b.start) := by
  intro l
  induction l using coalesce.induct with
  | case1 =>
    intro _
    simp [coalesce]
  | case2 a =>
    intro _
    simp [coalesce]
  | case3 a b rest h ih =>
    intro hl
    simp only [coalesce]
    rw [if_pos h]
    apply ih
    rcases List.pairwise_cons.mp hl with ⟨ha, hbl⟩
    rcases List.pairwise_cons.mp hbl with ⟨_, hrest⟩
    refine List.pairwise_cons.mpr ⟨?_, hrest⟩
    intro y hy
    exact ha y (List.mem_cons_of_mem _ hy)
  | case4 a b rest h ih =>
    intro hl
    simp only [coalesce]
    rw [if_neg h]
    rcases List.pairwise_cons.mp hl with ⟨ha, hbl⟩
    refine List.pairwise_cons.mpr ⟨?_, ih hbl⟩
    intro x hx
    obtain ⟨y, hy, hys⟩ := coalesce_start_mem _ x hx
    rw [← hys]
    exact ha y hy

/-- Coalescing a start-sorted list separates it: every interval ends
strictly before the next one starts. -/
theorem coalesce_separated : ∀ (l : List Interval), l.Pairwise (fun a b => a.start ≤ b.start) →
    (coalesce l).Pairwise (fun a b => a.stop < b.start) := by
  intro l
  induction l using coalesce.induct with
  | case1 =>
    intro _
    simp [coalesce]
  | case2 a =>
    intro _
    simp [coalesce]
  | case3 a b rest h ih =>
    intro hl
    simp only [coalesce]
    rw [if_pos h]
    apply ih
    rcases List.pairwise_cons.mp hl with ⟨ha, hbl⟩
    rcases List.pairwise_cons.mp hbl with ⟨_, hrest⟩
    refine List.pairwise_cons.mpr ⟨?_, hrest⟩
    intro y hy
    exact ha y (List.mem_cons_of_mem _ hy)
  | case4 a b rest h ih =>
    intro hl
    simp only [coalesce]
    rw [if_neg h]
    rcases List.pairwise_cons.mp hl with ⟨_, hbl⟩
    refine List.pairwise_cons.mpr ⟨?_, ih hbl⟩
    intro x hx
    obtain ⟨y, hy, hys⟩ := coalesce_start_mem _ x hx
    rw [← hys]
    rcases List.mem_cons.mp hy with h1 | h1
    · rw [h1]
      omega
    · have hb := (List.pairwise_cons.mp hbl).1 y h1
      omega

/-- A separated list is a fixpoint of coalescing. -/
theorem coalesce_of_separated : ∀ (l : List Interval), l.Pairwise (fun a b => a.stop < b.start) →
    coalesce l = l := by
  intro l
  induction l using coalesce.induct with
  | case1 =>
    intro _
    simp [coalesce]
  | case2 a =>
    intro _
    simp [coalesce]
  | case3 a b rest h _ =>
    intro hl
    exfalso
    have hb := (List.pairwise_cons.mp hl).1 b (by simp)
    omega
  | case4 a b rest h ih =>
    intro hl
    simp only [coalesce]
    rw [if_neg h, ih (List.pairwise_cons.mp hl).2]

/-- C6: merge is idempotent, and its output is sorted by start and
pairwise non-overlapping. -/
theorem merge_idempotent_sorted_disjoint (xs : List Interval) :
    merge (merge xs) = merge xs ∧
    (merge xs).Pairwise (fun a b => a.start ≤ b.start) ∧
    (merge xs).Pairwise (fun a b => overlaps a b = false) := by
  have hsortb : (xs.mergeSort startLE).Pairwise (fun a b => startLE a b = true) := by
    apply List.sorted_mergeSort
    · intro a b c hab hbc
      simp [startLE] at *
      omega
    · intro a b
      simp [startLE]
      omega
  have hsort : (xs.mergeSort startLE).Pairwise (fun a b => a.start ≤ b.start) := by
    refine hsortb.imp ?_
    intro a b hab
    simpa [startLE] using hab
  have hms : (merge xs).Pairwise (fun a b => a.start ≤ b.start) := coalesce_sorted _ hsort
  have hsep : (merge xs).Pairwise (fun a b => a.stop < b.start) := coalesce_separated _ hsort
  refine ⟨?_, hms, ?_⟩
  · have h1 : (merge xs).mergeSort startLE = merge xs := by
      apply List.mergeSort_of_sorted
      refine hms.imp ?_
      intro a b hab
      simpa [startLE] using hab
    have h2 : merge (merge xs) = coalesce ((merge xs).mergeSort startLE) := rfl
    rw [h2, h1]
    exact coalesce_of_separated _ hsep
  · refine hsep.imp ?_
    intro a b hab
    simp [overlaps]
    omega

/-- Every slot the inner generator loop emits belongs to the day it was
called for. -/
theorem slotsFrom_day_eq : ∀ (day t endT dur : Nat), ∀ sl ∈ slotsFrom day t endT dur, sl.day = day := by
  intro day t endT dur
  induction t, endT, dur using slotsFrom.induct day with
  | case1 t endT dur h ih =>
    intro sl hsl
    rw [slotsFrom, dif_pos h] at hsl
    rcases List.mem_cons.mp hsl with h1 | h1
    · rw [h1]
    · exact ih sl h1
  | case2 t endT dur h =>
    intro sl hsl
    rw [slotsFrom, dif_neg h] at hsl
    simp at hsl

/-- Every generated slot falls on a day whose weekday belongs to the
schedule weekday set. -/
theorem generate_weekday_mem : ∀ (s : EngineSchedule) (fromDay toDay : Nat),
    ∀ sl ∈ generate s fromDay toDay, weekdayOf sl.day ∈ s.weekdays := by
  intro s fromDay toDay sl hsl
  simp only [generate, List.mem_flatten, List.mem_map] at hsl
  obtain ⟨block, ⟨day, _, hblock⟩, hmem⟩ := hsl
  by_cases hc : weekdayOf day ∈ s.weekdays
  · rw [if_pos hc] at hblock
    subst hblock
    have hday := slotsFrom_day_eq day s.start_time s.end_time s.slot_duration sl hmem
    rw [hday]
    exact hc
  · rw [if_neg hc] at hblock
    subst hblock
    simp at hmem

/-- The daily run for a 09:00 to 17:00 window with 60 minute slots is the
eight hourly slots of that day. -/
theorem slotsFrom_business (day : Nat) :
    slotsFrom day 540 1020 60 =
      [⟨day, 540, 600⟩, ⟨day, 600, 660⟩, ⟨day, 660, 720⟩, ⟨day, 720, 780⟩,
       ⟨day, 780, 840⟩, ⟨day, 840, 900⟩, ⟨day, 900, 960⟩, ⟨day, 960, 1020⟩] := by
  simp [slotsFrom]

set_option maxHeartbeats 2000000 in
/-- C5: over any 7-day range, the Monday-to-Friday 09:00-17:00 schedule
with 60 minute slots generates exactly 40 candidate slots, and none of
them falls on a weekend day. -/
theorem generate_week_forty (d : Nat) :
    (generate businessWeekSchedule d (d + 7)).length = 40 ∧
    ∀ sl ∈ generate businessWeekSchedule d (d + 7), weekdayOf sl.day ∈ [1, 2, 3, 4, 5] := by
  constructor
  · have h7 : d + 7 - d = 7 := by omega
    have hr : List.range 7 = [0, 1, 2, 3, 4, 5, 6] := by decide
    simp only [generate, businessWeekSchedule, h7, hr, List.map_cons, List.map_nil,
      List.flatten_cons, List.flatten_nil, slotsFrom_business, weekdayOf,
      apply_ite List.length, List.length_cons, List.length_nil, List.length_append,
      List.mem_cons, List.not_mem_nil, or_false]
    split_ifs <;> omega
  · intro sl hsl
    have h := generate_weekday_mem businessWeekSchedule d (d + 7) sl hsl
    simpa [businessWeekSchedule] using h

/-- The literal form of the seven-day index range. -/
theorem range_seven : List.range 7 = [0, 1, 2, 3, 4, 5, 6] := by
  decide

/-- Concrete instance of the weekly grid: over days 0 to 6 the schedule
generates 40 slots and the first Monday slot sits on a kept weekday. -/
theorem generate_week_forty_witness :
    (generate businessWeekSchedule 0 (0 + 7)).length = 40 ∧
    weekdayOf (⟨0, 540, 600⟩ : Slot).day ∈ [1, 2, 3, 4, 5] := by
  refine ⟨(generate_week_forty 0).1, (generate_week_forty 0).2 ⟨0, 540, 600⟩ ?_⟩
  simp only [generate, businessWeekSchedule, Nat.add_sub_cancel_left, range_seven,
    List.map_cons, List.map_nil, List.flatten_cons, List.flatten_nil,
    slotsFrom_business, weekdayOf]
  simp

/-- C7: the booking window starts at now plus earliest_booking clipped by
start_date, never extends past now plus farthest_booking or end_date,
degrades to an empty interval with start equal to stop instead of failing
when the clipped window is empty or inverted, and consequently no slot
inside the window starts before now plus earliest_booking. -/
theorem allowedRange_clipped (s : EngineSchedule) (now : Int) :
    (allowedRange s now).start = max (now + s.earliest_booking) s.start_date ∧
    (allowedRange s now).stop =
      max (allowedRange s now).start
        (match s.end_date with
          | some ed => min (now + s.farthest_booking) ed
          | none => now + s.farthest_booking) ∧
    (allowedRange s now).start ≤ (allowedRange s now).stop ∧
    ∀ a b : Int, inWindow (allowedRange s now) a b → now + s.earliest_booking ≤ a := by
  rcases hE : s.end_date with _ | ed <;>
    simp only [allowedRange, inWindow, hE] <;>
    split_ifs <;>
    dsimp only <;>
    refine ⟨by omega, by omega, by omega, ?_⟩ <;>
    (intro a b hab
     rcases hab with ⟨h1, _⟩
     omega)

/-- Concrete instance of the booking window: with earliest_booking 1440
and now at minute 100, a slot inside the window starting at minute 1600
indeed starts no earlier than now plus one day. -/
theorem allowedRange_clipped_witness :
    (100 : Int) + (businessWeekSchedule.earliest_booking : Int) ≤ 1600 :=
  (allowedRange_clipped businessWeekSchedule 100).2.2.2 1600 1660 ⟨by decide, by decide⟩

end Appointment
